import Mathlib

/-!
Shallow embedding of the Anthropic-to-OpenAI proxy translator
(`src/proxy.ts` of the repository) together with theorems settling the
frozen claims about it.

Modelling conventions:
* JS strings are modelled as `String` (payloads) or `List Char` (the
  upstream byte/char stream, where splitting on `'\n'` matters).
* JS `undefined`/missing fields are `Option.none`; JS string truthiness
  (`''` is falsy) is `strTruthy`; JS `x || y` on numbers (`0` falsy) is
  `jsOrNat`.
* `JSON.parse` is an external library call; it is a parameter
  `parse : List Char → Option BackendEvent` (streaming) resp.
  `parseJson : String → Option Json` (tool arguments), returning `none`
  exactly when `JSON.parse` would throw.
* The JS `Map` keyed by upstream tool-call index (iterated in insertion
  order) is an association list `List (Nat × ToolAcc)` that appends new
  keys at the end; the `Set` of started block indices is a `List Nat`
  queried only through `contains`.
* `res.write`/`res.end` become an emitted event list and a `done` flag:
  once `res.end()` has run no further write reaches the client, so
  processing after `done` emits nothing.
-/

namespace Proxy

/-- Minimal JSON value type, for tool inputs and tool schemas. -/
inductive Json where
  | null : Json
  | bool (b : Bool) : Json
  | num (n : Int) : Json
  | str (s : String) : Json
  | arr (xs : List Json) : Json
  | obj (fields : List (String × Json)) : Json

/-- JS truthiness of an optional string: missing and `""` are falsy. -/
def strTruthy : Option String → Bool
  | some s => !s.isEmpty
  | none => false

/-- JS `x || old` for an optional numeric field: `undefined` and `0` are falsy. -/
def jsOrNat : Option Nat → Nat → Nat
  | some n, old => if n = 0 then old else n
  | none, old => old

/-- JS truthiness of a JSON value (for `tool.input_schema || {...}`). -/
def jsonTruthy : Json → Bool
  | .null => false
  | .bool b => b
  | .num n => !(n = 0)
  | .str s => !s.isEmpty
  | .arr _ => true
  | .obj _ => true

/-- Accumulator for one upstream tool call (`{ id, name, arguments }`). -/
structure ToolAcc where
  id : String
  name : String
  arguments : String
deriving DecidableEq

/-- One entry of `delta.tool_calls` as read by the translator:
`tc.index`, `tc.id`, `tc.function?.name`, `tc.function?.arguments`. -/
structure ToolCallFragment where
  index : Option Nat
  id : Option String
  name : Option String
  arguments : Option String
deriving DecidableEq

/-- The `delta` object of a backend streaming choice. -/
structure Delta where
  content : Option String
  tool_calls : Option (List ToolCallFragment)
deriving DecidableEq

/-- One element of `data.choices` in a backend streaming event. -/
structure Choice where
  finish_reason : Option String
  delta : Option Delta
deriving DecidableEq

/-- The backend `usage` object (`prompt_tokens` / `completion_tokens`). -/
structure Usage where
  prompt_tokens : Option Nat
  completion_tokens : Option Nat
deriving DecidableEq

/-- A parsed backend streaming event, in the shape `handleStreaming` reads. -/
structure BackendEvent where
  choices : Option (List Choice)
  usage : Option Usage
deriving DecidableEq

/-- The Anthropic SSE events written by `handleStreaming` (payload fields
that the claims mention are kept; constant fields such as
`stop_sequence: null` are not repeated). -/
inductive SSEEvent where
  | messageStart (id : String) (model : String) (inputTokens outputTokens : Nat)
  | contentBlockStartText (index : Nat)
  | contentBlockStartTool (index : Nat) (id : String) (name : String) (input : Json)
  | contentBlockDeltaText (index : Nat) (text : String)
  | contentBlockDeltaInputJson (index : Nat) (pjson : String)
  | contentBlockStop (index : Nat)
  | messageDelta (stopReason : String) (outputTokens : Nat)
  | messageStop

/-- The per-request mutable locals of `handleStreaming` (the trailing-line
buffer is threaded separately, exactly as the source keeps it in a
separate variable). -/
structure StreamState where
  textBlockStarted : Bool
  currentBlockIndex : Nat
  toolCalls : List (Nat × ToolAcc)
  toolBlocksStarted : List Nat
  inputTokens : Nat
  outputTokens : Nat
  done : Bool
deriving DecidableEq

/-- Initial stream state (`handleStreaming` locals at declaration). -/
def initState : StreamState :=
  { textBlockStarted := false
    currentBlockIndex := 0
    toolCalls := []
    toolBlocksStarted := []
    inputTokens := 0
    outputTokens := 0
    done := false }

/-- `Map.get` on the insertion-ordered tool-call accumulator map. -/
def accFind : List (Nat × ToolAcc) → Nat → Option ToolAcc
  | [], _ => none
  | (k, v) :: rest, i => if k = i then some v else accFind rest i

/-- `Map.set` on an existing key (in-place update, order preserved). -/
def accSet : List (Nat × ToolAcc) → Nat → ToolAcc → List (Nat × ToolAcc)
  | [], _, _ => []
  | (k, v) :: rest, i, a => if k = i then (k, a) :: rest else (k, v) :: accSet rest i a

/-- The accumulator for upstream index `i` before merging a fragment:
the existing map entry, or the fresh `{ id: tc.id || '', name: '', arguments: '' }`
that `toolCalls.set` inserts when the key is absent. -/
def baseAcc (st : StreamState) (i : Nat) (tc : ToolCallFragment) : ToolAcc :=
  match accFind st.toolCalls i with
  | some a => a
  | none => { id := tc.id.getD "", name := "", arguments := "" }

/-- The accumulator after merging one fragment: overwrite `id`/`name` when
the fragment carries a truthy one, append truthy `arguments` text. -/
def mergedAcc (st : StreamState) (tc : ToolCallFragment) : ToolAcc :=
  let a0 := baseAcc st (tc.index.getD 0) tc
  let a1 := if strTruthy tc.id then { a0 with id := tc.id.getD "" } else a0
  let a2 := if strTruthy tc.name then { a1 with name := tc.name.getD "" } else a1
  if strTruthy tc.arguments then { a2 with arguments := a2.arguments ++ tc.arguments.getD "" } else a2

/-- Processing of one entry of `delta.tool_calls` (the body of the
`for (const tc of delta.tool_calls)` loop). -/
def processFrag (st : StreamState) (tc : ToolCallFragment) : StreamState × List SSEEvent :=
  let i := tc.index.getD 0
  let blockIndex := st.currentBlockIndex + i
  let acc := mergedAcc st tc
  let toolCalls1 :=
    match accFind st.toolCalls i with
    | some _ => accSet st.toolCalls i acc
    | none => st.toolCalls ++ [(i, acc)]
  let startNow := !(st.toolBlocksStarted.contains blockIndex) && !acc.name.isEmpty
  let started1 := if startNow then blockIndex :: st.toolBlocksStarted else st.toolBlocksStarted
  let startEvs :=
    if startNow then [SSEEvent.contentBlockStartTool blockIndex acc.id acc.name (Json.obj [])] else []
  let deltaEvs :=
    if strTruthy tc.arguments && started1.contains blockIndex then
      [SSEEvent.contentBlockDeltaInputJson blockIndex (tc.arguments.getD "")]
    else []
  ({ st with toolCalls := toolCalls1, toolBlocksStarted := started1 }, startEvs ++ deltaEvs)

/-- The whole `for (const tc of delta.tool_calls)` loop. -/
def processFrags (st : StreamState) : List ToolCallFragment → StreamState × List SSEEvent
  | [] => (st, [])
  | tc :: rest =>
    let p1 := processFrag st tc
    let p2 := processFrags p1.1 rest
    (p2.1, p1.2 ++ p2.2)

/-- The missing `delta` object defaults to `{}` (`choice.delta || {}`). -/
def emptyDelta : Delta := { content := none, tool_calls := none }

/-- Processing of one parsed backend event (the body of the per-line
`try` block of `handleStreaming`, after `JSON.parse` succeeded). -/
def processEvent (st : StreamState) (data : BackendEvent) : StreamState × List SSEEvent :=
  match data.choices.getD [] with
  | [] => (st, [])
  | choice :: _ =>
    let delta := choice.delta.getD emptyDelta
    if strTruthy choice.finish_reason then
      let textStops :=
        if st.textBlockStarted then [SSEEvent.contentBlockStop st.currentBlockIndex] else []
      let toolStops := st.toolCalls.filterMap fun p =>
        let blockIndex := st.currentBlockIndex + p.1 + 1
        if st.toolBlocksStarted.contains blockIndex then
          some (SSEEvent.contentBlockStop blockIndex)
        else none
      let stopReason := if choice.finish_reason = some "tool_calls" then "tool_use" else "end_turn"
      ({ st with done := true },
        textStops ++ toolStops ++
          [SSEEvent.messageDelta stopReason st.outputTokens, SSEEvent.messageStop])
    else
      let p1 :=
        if strTruthy delta.content then
          ({ st with textBlockStarted := true, outputTokens := st.outputTokens + 1 },
            (if st.textBlockStarted then [] else [SSEEvent.contentBlockStartText st.currentBlockIndex]) ++
              [SSEEvent.contentBlockDeltaText st.currentBlockIndex (delta.content.getD "")])
        else (st, [])
      let st1 := p1.1
      let p2 :=
        match delta.tool_calls with
        | none => (st1, ([] : List SSEEvent))
        | some frags =>
          let pA :=
            if st1.textBlockStarted && st1.toolBlocksStarted.isEmpty then
              ({ st1 with currentBlockIndex := st1.currentBlockIndex + 1, textBlockStarted := false },
                [SSEEvent.contentBlockStop st1.currentBlockIndex])
            else (st1, [])
          let pB := processFrags pA.1 frags
          (pB.1, pA.2 ++ pB.2)
      let st2 := p2.1
      let st3 :=
        match data.usage with
        | none => st2
        | some u =>
          { st2 with
            inputTokens := jsOrNat u.prompt_tokens st2.inputTokens
            outputTokens := jsOrNat u.completion_tokens st2.outputTokens }
      (st3, p1.2 ++ p2.2)

/-- Convenience: process a list of already-parsed backend events in order. -/
def processEvents (st : StreamState) : List BackendEvent → StreamState × List SSEEvent
  | [] => (st, [])
  | e :: es =>
    let p1 := processEvent st e
    let p2 := processEvents p1.1 es
    (p2.1, p1.2 ++ p2.2)

/-- `line.startsWith(s)` on char sequences. -/
def leadsWith : List Char → List Char → Bool
  | [], _ => true
  | _ :: _, [] => false
  | a :: as, b :: bs => a = b && leadsWith as bs

/-- `hay.includes(sub)` on char sequences (JS `String.prototype.includes`). -/
def hasSub (sub : List Char) : List Char → Bool
  | [] => sub.isEmpty
  | c :: rest => leadsWith sub (c :: rest) || hasSub sub rest

/-- Whitespace (the characters relevant to SSE lines) for `.trim()`. -/
def isWsChar (c : Char) : Bool :=
  c = ' ' || c = '\n' || c = '\r' || c = '\t'

/-- JS `s.trim()` on a char sequence. -/
def trimSeq (l : List Char) : List Char :=
  ((l.dropWhile isWsChar).reverse.dropWhile isWsChar).reverse

/-- The SSE data marker `"data: "`. -/
def dataMarker : List Char := "data: ".toList

/-- The `"[DONE]"` sentinel payload. -/
def doneMarker : List Char := "[DONE]".toList

/-- Processing of one complete line of the upstream stream: skip non-data
lines, skip the `[DONE]` sentinel, skip lines whose payload fails to
parse, otherwise process the parsed event.  After the outbound stream
has ended (`done`), writes no longer reach the client and the source's
early `return` skips the remaining lines, so nothing is emitted. -/
def processLine (parse : List Char → Option BackendEvent) (st : StreamState)
    (line : List Char) : StreamState × List SSEEvent :=
  if st.done then (st, [])
  else if !(leadsWith dataMarker line) then (st, [])
  else
    let dataStr := trimSeq (line.drop 6)
    if dataStr = doneMarker then (st, [])
    else
      match parse dataStr with
      | none => (st, [])
      | some ev => processEvent st ev

/-- Processing of a batch of complete lines, in order. -/
def processLines (parse : List Char → Option BackendEvent) (st : StreamState) :
    List (List Char) → StreamState × List SSEEvent
  | [] => (st, [])
  | l :: ls =>
    let p1 := processLine parse st l
    let p2 := processLines parse p1.1 ls
    (p2.1, p1.2 ++ p2.2)

/-- `s.split('\n')` with the last element popped back into the buffer:
returns the complete lines and the trailing incomplete remainder. -/
def splitLines : List Char → List (List Char) × List Char
  | [] => ([], [])
  | c :: rest =>
    let p := splitLines rest
    if c = '\n' then ([] :: p.1, p.2)
    else
      match p.1 with
      | [] => ([], c :: p.2)
      | l :: ls => ((c :: l) :: ls, p.2)

/-- One `azureRes.on('data')` callback invocation: append the chunk to the
buffer, split off complete lines, keep the remainder, process the lines. -/
def processChunk (parse : List Char → Option BackendEvent) (st : StreamState)
    (buf : List Char) (chunk : List Char) : (StreamState × List Char) × List SSEEvent :=
  let p := splitLines (buf ++ chunk)
  let q := processLines parse st p.1
  ((q.1, p.2), q.2)

/-- Processing of a whole sequence of upstream chunks. -/
def processChunks (parse : List Char → Option BackendEvent) :
    StreamState → List Char → List (List Char) → (StreamState × List Char) × List SSEEvent
  | st, buf, [] => ((st, buf), [])
  | st, buf, c :: cs =>
    let p1 := processChunk parse st buf c
    let p2 := processChunks parse p1.1.1 p1.1.2 cs
    (p2.1, p1.2 ++ p2.2)

/-- The full streaming translation of one request: emit `message_start`
(with the generated id, the original model identifier and zeroed usage)
before any backend bytes, then process the upstream chunks. -/
def runStream (parse : List Char → Option BackendEvent) (msgId model : String)
    (chunks : List (List Char)) : (StreamState × List Char) × List SSEEvent :=
  let p := processChunks parse initState [] chunks
  (p.1, SSEEvent.messageStart msgId model 0 0 :: p.2)

/-- The three configured Azure deployment names. -/
structure Deployments where
  opus : String
  sonnet : String
  haiku : String
deriving DecidableEq

/-- `mapModel` from the source: substring family matching with fixed
priority and `sonnet` as the fallback. -/
def mapModel (model : String) (config : Deployments) : String :=
  if hasSub "opus".toList model.toList then config.opus
  else if hasSub "haiku".toList model.toList then config.haiku
  else config.sonnet

/-- Message role of the Anthropic Messages API. -/
inductive Role where
  | user
  | assistant
deriving DecidableEq

/-- One inbound content block as read by `convertMessages` (only the
`type` tag and the optional `text` field are consulted). -/
structure InContentBlock where
  type : String
  text : Option String
deriving DecidableEq

/-- One inbound Anthropic message: content is a plain string or a block list. -/
structure AnthropicMessage where
  role : Role
  content : Sum String (List InContentBlock)
deriving DecidableEq

/-- One inbound tool definition. -/
structure ToolDef where
  name : String
  description : Option String
  input_schema : Option Json

/-- The inbound Anthropic Messages request (the fields the proxy reads). -/
structure AnthropicRequest where
  model : String
  messages : List AnthropicMessage
  system : Option String
  max_tokens : Option Nat
  temperature : Option Rat
  stream : Option Bool
  tools : Option (List ToolDef)

/-- A backend chat message. -/
structure OpenAIMessage where
  role : String
  content : String
deriving DecidableEq

/-- A backend function-tool descriptor produced by `convertTools`. -/
structure OpenAITool where
  name : String
  description : String
  params : Json

/-- The translated backend request. -/
structure OpenAIRequest where
  model : String
  messages : List OpenAIMessage
  max_tokens : Nat
  temperature : Rat
  stream : Bool
  tools : Option (List OpenAITool)
  tool_choice : Option String

/-- Role rendering for the backend message list. -/
def roleStr : Role → String
  | .user => "user"
  | .assistant => "assistant"

/-- `convertMessages` from the source: optional leading system message,
then each message flattened (string copied verbatim; block lists keep
only `text` blocks, joined with newlines, `block.text || ''`). -/
def convertMessages (messages : List AnthropicMessage) (system : Option String) :
    List OpenAIMessage :=
  (if strTruthy system then [{ role := "system", content := system.getD "" }] else []) ++
    messages.map fun m =>
      { role := roleStr m.role
        content :=
          match m.content with
          | .inl s => s
          | .inr blocks =>
            String.intercalate "\n"
              ((blocks.filter fun b => b.type = "text").map fun b =>
                if strTruthy b.text then b.text.getD "" else "") }

/-- `convertTools` from the source. -/
def convertTools (tools : List ToolDef) : List OpenAITool :=
  tools.map fun t =>
    { name := t.name
      description := if strTruthy t.description then t.description.getD "" else ""
      params :=
        match t.input_schema with
        | some j =>
          if jsonTruthy j then j
          else Json.obj [("type", Json.str "object"), ("properties", Json.obj [])]
        | none => Json.obj [("type", Json.str "object"), ("properties", Json.obj [])] }

/-- The `openaiReq` object built in `createProxy`:
`max_tokens: anthropicReq.max_tokens || 4096`,
`temperature: anthropicReq.temperature ?? 1`,
`stream: anthropicReq.stream === true`, tools added only when a
non-empty tool list is present. -/
def buildOpenAIReq (r : AnthropicRequest) (dep : Deployments) : OpenAIRequest :=
  let base : OpenAIRequest :=
    { model := mapModel r.model dep
      messages := convertMessages r.messages r.system
      max_tokens :=
        match r.max_tokens with
        | some n => if n = 0 then 4096 else n
        | none => 4096
      temperature := r.temperature.getD 1
      stream := r.stream = some true
      tools := none
      tool_choice := none }
  match r.tools with
  | some ts =>
    if ts.isEmpty then base
    else { base with tools := some (convertTools ts), tool_choice := some "auto" }
  | none => base

/-- A backend tool call in a non-streaming response
(`tc.id`, `tc.function.name`, `tc.function.arguments`). -/
structure NSToolCall where
  id : String
  name : String
  arguments : Option String
deriving DecidableEq

/-- The backend message of a non-streaming choice. -/
structure NSMessage where
  content : Option String
  tool_calls : Option (List NSToolCall)
deriving DecidableEq

/-- One choice of a non-streaming backend response. -/
structure NSChoice where
  message : Option NSMessage
  finish_reason : Option String
deriving DecidableEq

/-- A parsed non-streaming backend response body. -/
structure NSResponse where
  choices : Option (List NSChoice)
  usage : Option Usage
deriving DecidableEq

/-- An outbound Anthropic content block. -/
inductive ContentOut where
  | text (s : String)
  | toolUse (id : String) (name : String) (input : Json)

/-- Translation of one backend tool call:
`JSON.parse(tc.function.arguments || '{}')`, with parse failure caught
and replaced by the empty object. -/
def toolUseOf (parseJson : String → Option Json) (tc : NSToolCall) : ContentOut :=
  let argStr := if strTruthy tc.arguments then tc.arguments.getD "" else "\x7b\x7d"
  ContentOut.toolUse tc.id tc.name ((parseJson argStr).getD (Json.obj []))

/-- The outbound Anthropic message body of the non-streaming path
(the fields the claims mention). -/
structure AnthropicResponseBody where
  content : List ContentOut
  model : String
  stop_reason : String
  input_tokens : Nat
  output_tokens : Nat

/-- The non-streaming translation (`azureRes.on('end')` handler body):
fails when the backend response has no first choice, otherwise builds
the Anthropic message. -/
def translateResponse (parseJson : String → Option Json) (data : NSResponse)
    (model : String) : Except String AnthropicResponseBody :=
  match data.choices.getD [] with
  | [] => Except.error "No response from Azure"
  | choice :: _ =>
    let textPart :=
      match choice.message with
      | some m => if strTruthy m.content then [ContentOut.text (m.content.getD "")] else []
      | none => []
    let toolPart :=
      match choice.message with
      | some m =>
        match m.tool_calls with
        | some tcs => tcs.map (toolUseOf parseJson)
        | none => []
      | none => []
    Except.ok
      { content := textPart ++ toolPart
        model := model
        stop_reason := if choice.finish_reason = some "tool_calls" then "tool_use" else "end_turn"
        input_tokens := jsOrNat (data.usage.bind fun u => u.prompt_tokens) 0
        output_tokens := jsOrNat (data.usage.bind fun u => u.completion_tokens) 0 }

/-- The HTTP body written by the non-streaming handler: either the
serialized Anthropic message, or `{"error": <message>}`. -/
inductive HttpBody where
  | message (b : AnthropicResponseBody)
  | errBody (msg : String)

/-- Status code and body of the non-streaming HTTP response: 200 with the
message on success, 500 with the error body when translation throws. -/
def nonStreamingHttp (parseJson : String → Option Json) (data : NSResponse)
    (model : String) : Nat × HttpBody :=
  match translateResponse parseJson data model with
  | .ok b => (200, .message b)
  | .error e => (500, .errBody e)

/-- The content-block index carried by an event, when it has one. -/
def SSEEvent.blockIndex? : SSEEvent → Option Nat
  | .contentBlockStartText i => some i
  | .contentBlockStartTool i _ _ _ => some i
  | .contentBlockDeltaText i _ => some i
  | .contentBlockDeltaInputJson i _ => some i
  | .contentBlockStop i => some i
  | _ => none

/-- Whether an event is `message_stop`. -/
def SSEEvent.isMessageStop : SSEEvent → Bool
  | .messageStop => true
  | _ => false

/-- Whether an event is `message_delta`. -/
def SSEEvent.isMessageDelta : SSEEvent → Bool
  | .messageDelta _ _ => true
  | _ => false

/-- Whether an event sequence contains neither `message_delta` nor
`message_stop`. -/
def terminalFree (evs : List SSEEvent) : Bool :=
  evs.all fun e => !e.isMessageStop && !e.isMessageDelta

/-- Scan check: every `input_json_delta` occurs after a `tool_use`
`content_block_start` at the same index (given the indices already
started before the scan). -/
def deltasCovered (started : List Nat) : List SSEEvent → Bool
  | [] => true
  | SSEEvent.contentBlockStartTool k _ _ _ :: rest => deltasCovered (k :: started) rest
  | SSEEvent.contentBlockDeltaInputJson k _ :: rest =>
    started.contains k && deltasCovered started rest
  | _ :: rest => deltasCovered started rest

/-- Indices of tool-block starts occurring in an event sequence, added to
an initial set. -/
def addStarts (started : List Nat) : List SSEEvent → List Nat
  | [] => started
  | SSEEvent.contentBlockStartTool k _ _ _ :: rest => addStarts (k :: started) rest
  | _ :: rest => addStarts started rest

/-- Whether a JSON value is the empty object. -/
def Json.isEmptyObj : Json → Bool
  | .obj [] => true
  | _ => false

/-- Every `tool_use` `content_block_start` in the sequence carries an empty
input object. -/
def toolStartsEmpty (evs : List SSEEvent) : Bool :=
  evs.all fun e =>
    match e with
    | SSEEvent.contentBlockStartTool _ _ _ inp => inp.isEmptyObj
    | _ => true

/-! ### Substring containment -/

theorem leadsWith_iff (a b : List Char) : leadsWith a b = true ↔ ∃ t, b = a ++ t := by
  induction a generalizing b with
  | nil => simp [leadsWith]
  | cons c as ih =>
    cases b with
    | nil => simp [leadsWith]
    | cons d bs =>
      simp only [leadsWith, Bool.and_eq_true, decide_eq_true_eq, ih, List.cons_append,
        List.cons.injEq]
      constructor
      · rintro ⟨rfl, t, rfl⟩; exact ⟨t, rfl, rfl⟩
      · rintro ⟨t, rfl, rfl⟩; exact ⟨rfl, t, rfl⟩

theorem hasSub_iff (sub hay : List Char) :
    hasSub sub hay = true ↔ ∃ pre post, hay = pre ++ sub ++ post := by
  induction hay with
  | nil =>
    simp only [hasSub, List.isEmpty_iff]
    constructor
    · rintro rfl
      exact ⟨[], [], rfl⟩
    · rintro ⟨pre, post, h⟩
      rcases List.append_eq_nil.mp h.symm with ⟨h1, h2⟩
      exact (List.append_eq_nil.mp h1).2
  | cons c rest ih =>
    simp only [hasSub, Bool.or_eq_true, leadsWith_iff, ih]
    constructor
    · rintro (⟨t, ht⟩ | ⟨pre, post, hp⟩)
      · exact ⟨[], t, by simpa using ht⟩
      · exact ⟨c :: pre, post, by simp [hp]⟩
    · rintro ⟨pre, post, hp⟩
      cases pre with
      | nil => exact Or.inl ⟨post, by simpa using hp⟩
      | cons c' pre' =>
        right
        have hp' : c :: rest = c' :: (pre' ++ sub ++ post) := by simpa using hp
        injection hp' with h1 h2
        exact ⟨pre', post, h2⟩

/-! ### C7 — model mapping -/

/-- C7: for every model identifier and deployment record, resolution
returns the opus deployment when the identifier contains `"opus"`,
otherwise the haiku deployment when it contains `"haiku"`, otherwise the
sonnet deployment; it is total, and `"claude-opus-20250101"` resolves to
the opus deployment. -/
theorem c7_mapModel_family (model : String) (dep : Deployments) :
    ((∃ pre post, model.toList = pre ++ "opus".toList ++ post) →
        mapModel model dep = dep.opus) ∧
    ((¬ ∃ pre post, model.toList = pre ++ "opus".toList ++ post) →
      (∃ pre post, model.toList = pre ++ "haiku".toList ++ post) →
        mapModel model dep = dep.haiku) ∧
    ((¬ ∃ pre post, model.toList = pre ++ "opus".toList ++ post) →
      (¬ ∃ pre post, model.toList = pre ++ "haiku".toList ++ post) →
        mapModel model dep = dep.sonnet) ∧
    mapModel "claude-opus-20250101" dep = dep.opus := by
  have hfalse : ∀ sub : List Char, (¬ ∃ pre post, model.toList = pre ++ sub ++ post) →
      hasSub sub model.toList = false := by
    intro sub h
    cases hh : hasSub sub model.toList
    · rfl
    · exact absurd ((hasSub_iff _ _).mp hh) h
  refine ⟨?_, ?_, ?_, ?_⟩
  · intro h
    have ho : hasSub "opus".toList model.toList = true := (hasSub_iff _ _).mpr h
    unfold mapModel
    rw [ho]
    simp
  · intro h1 h2
    have e1 := hfalse _ h1
    have e2 : hasSub "haiku".toList model.toList = true := (hasSub_iff _ _).mpr h2
    unfold mapModel
    rw [e1, e2]
    simp
  · intro h1 h2
    unfold mapModel
    rw [hfalse _ h1, hfalse _ h2]
    simp
  · have ho : hasSub "opus".toList "claude-opus-20250101".toList = true := by decide
    unfold mapModel
    rw [ho]
    simp

theorem c7_mapModel_family_witness :
    mapModel "claude-opus-20250101" ⟨"dep-o", "dep-s", "dep-h"⟩ = "dep-o" ∧
    mapModel "claude-haiku-3" ⟨"dep-o", "dep-s", "dep-h"⟩ = "dep-h" ∧
    mapModel "gpt-4" ⟨"dep-o", "dep-s", "dep-h"⟩ = "dep-s" := by
  refine ⟨?_, ?_, ?_⟩
  · exact (c7_mapModel_family _ _).1 ⟨"claude-".toList, "-20250101".toList, by decide⟩
  · exact (c7_mapModel_family "claude-haiku-3" _).2.1
      (fun h => absurd ((hasSub_iff _ _).mpr h) (by decide))
      ⟨"claude-".toList, "-3".toList, by decide⟩
  · exact (c7_mapModel_family "gpt-4" _).2.2.1
      (fun h => absurd ((hasSub_iff _ _).mpr h) (by decide))
      (fun h => absurd ((hasSub_iff _ _).mpr h) (by decide))

/-! ### C4 — sampling defaults -/

theorem buildOpenAIReq_max_tokens (r : AnthropicRequest) (dep : Deployments) :
    (buildOpenAIReq r dep).max_tokens =
      match r.max_tokens with
      | some n => if n = 0 then 4096 else n
      | none => 4096 := by
  unfold buildOpenAIReq
  cases r.tools with
  | none => rfl
  | some ts => by_cases h : ts.isEmpty <;> simp [h]

theorem buildOpenAIReq_temperature (r : AnthropicRequest) (dep : Deployments) :
    (buildOpenAIReq r dep).temperature = r.temperature.getD 1 := by
  unfold buildOpenAIReq
  cases r.tools with
  | none => rfl
  | some ts => by_cases h : ts.isEmpty <;> simp [h]

/-- A concrete request carrying an explicit `max_tokens: 0`. -/
def reqMaxTokensZero : AnthropicRequest :=
  { model := "claude-sonnet"
    messages := []
    system := none
    max_tokens := some 0
    temperature := some 0
    stream := none
    tools := none }

/-- A concrete deployment record. -/
def depC : Deployments := ⟨"dep-o", "dep-s", "dep-h"⟩

/-- C4 counterexample: an explicit `max_tokens: 0` is not preserved — the
translator uses `||`, so the translated request carries 4096, refuting
the nullish-default reading for `max_tokens`. -/
theorem c4_counterexample :
    reqMaxTokensZero.max_tokens = some 0 ∧
    (buildOpenAIReq reqMaxTokensZero depC).max_tokens = 4096 ∧
    ¬ (buildOpenAIReq reqMaxTokensZero depC).max_tokens = 0 :=
  ⟨rfl, rfl, by decide⟩

/-- C4 (amended): `max_tokens` defaults to 4096 when unset and also when
explicitly 0 (falsy-default `||` semantics), while `temperature`
defaults to 1 with nullish semantics, so an explicit `temperature: 0`
is preserved. -/
theorem c4_sampling_defaults (r : AnthropicRequest) (dep : Deployments) :
    (r.max_tokens = none → (buildOpenAIReq r dep).max_tokens = 4096) ∧
    (r.max_tokens = some 0 → (buildOpenAIReq r dep).max_tokens = 4096) ∧
    (∀ n, r.max_tokens = some n → n ≠ 0 → (buildOpenAIReq r dep).max_tokens = n) ∧
    (r.temperature = none → (buildOpenAIReq r dep).temperature = 1) ∧
    (∀ t, r.temperature = some t → (buildOpenAIReq r dep).temperature = t) := by
  refine ⟨?_, ?_, ?_, ?_, ?_⟩
  · intro h; rw [buildOpenAIReq_max_tokens, h]
  · intro h; rw [buildOpenAIReq_max_tokens, h]; rfl
  · intro n h hn; rw [buildOpenAIReq_max_tokens, h]; simp [hn]
  · intro h; rw [buildOpenAIReq_temperature, h]; rfl
  · intro t h; rw [buildOpenAIReq_temperature, h]; rfl

theorem c4_sampling_defaults_witness :
    (buildOpenAIReq reqMaxTokensZero depC).max_tokens = 4096 ∧
    (buildOpenAIReq reqMaxTokensZero depC).temperature = 0 ∧
    (buildOpenAIReq { reqMaxTokensZero with max_tokens := some 77, temperature := none } depC).max_tokens = 77 ∧
    (buildOpenAIReq { reqMaxTokensZero with max_tokens := some 77, temperature := none } depC).temperature = 1 ∧
    (buildOpenAIReq { reqMaxTokensZero with max_tokens := none } depC).max_tokens = 4096 := by
  refine ⟨(c4_sampling_defaults _ depC).2.1 rfl,
    (c4_sampling_defaults _ depC).2.2.2.2 0 rfl,
    (c4_sampling_defaults _ depC).2.2.1 77 rfl (by decide),
    (c4_sampling_defaults _ depC).2.2.2.1 rfl,
    (c4_sampling_defaults _ depC).1 rfl⟩

/-! ### C8 — empty upstream response -/

/-- C8: when the parsed backend response has no first choice, translation
fails with the upstream-empty-response error, and the proxy answers
HTTP 500 with an `{"error": <message>}` body; no Anthropic message is
produced for the request. -/
theorem c8_empty_choices (parseJson : String → Option Json) (data : NSResponse)
    (model : String) (h : data.choices.getD [] = []) :
    translateResponse parseJson data model = Except.error "No response from Azure" ∧
    nonStreamingHttp parseJson data model = (500, HttpBody.errBody "No response from Azure") ∧
    ∀ b, nonStreamingHttp parseJson data model ≠ (200, HttpBody.message b) := by
  have ht : translateResponse parseJson data model = Except.error "No response from Azure" := by
    unfold translateResponse
    rw [h]
  have hh : nonStreamingHttp parseJson data model = (500, HttpBody.errBody "No response from Azure") := by
    unfold nonStreamingHttp
    rw [ht]
  refine ⟨ht, hh, fun b hb => ?_⟩
  rw [hh] at hb
  have h5 : (500 : Nat) = 200 := congrArg Prod.fst hb
  exact absurd h5 (by decide)

theorem c8_empty_choices_witness :
    translateResponse (fun _ => none) ⟨none, none⟩ "claude-sonnet" =
      Except.error "No response from Azure" ∧
    nonStreamingHttp (fun _ => none) ⟨none, none⟩ "claude-sonnet" =
      (500, HttpBody.errBody "No response from Azure") ∧
    ∀ b, nonStreamingHttp (fun _ => none) ⟨none, none⟩ "claude-sonnet" ≠ (200, HttpBody.message b) :=
  c8_empty_choices (fun _ => none) ⟨none, none⟩ "claude-sonnet" rfl

/-! ### Shape of the emitted events: a generic `all` lifting -/

theorem all_filterMap_stops (q : SSEEvent → Bool)
    (hq : ∀ k, q (SSEEvent.contentBlockStop k) = true)
    (g : Nat × ToolAcc → Option SSEEvent)
    (hg : ∀ p e, g p = some e → ∃ k, e = SSEEvent.contentBlockStop k) :
    ∀ l : List (Nat × ToolAcc), (l.filterMap g).all q = true := by
  intro l
  induction l with
  | nil => rfl
  | cons p rest ih =>
    cases hgp : g p with
    | none => simpa [List.filterMap_cons, hgp] using ih
    | some e =>
      obtain ⟨k, rfl⟩ := hg p e hgp
      simp [List.filterMap_cons, hgp, hq, ih]

theorem all_processFrag (q : SSEEvent → Bool)
    (h4 : ∀ b id n, q (SSEEvent.contentBlockStartTool b id n (Json.obj [])) = true)
    (h5 : ∀ b s, q (SSEEvent.contentBlockDeltaInputJson b s) = true)
    (st : StreamState) (tc : ToolCallFragment) : (processFrag st tc).2.all q = true := by
  simp only [processFrag]
  split <;> split <;> simp [h4, h5]

theorem all_processFrags (q : SSEEvent → Bool)
    (h4 : ∀ b id n, q (SSEEvent.contentBlockStartTool b id n (Json.obj [])) = true)
    (h5 : ∀ b s, q (SSEEvent.contentBlockDeltaInputJson b s) = true)
    (frags : List ToolCallFragment) :
    ∀ st : StreamState, (processFrags st frags).2.all q = true := by
  induction frags with
  | nil => intro st; rfl
  | cons tc rest ih =>
    intro st
    simp only [processFrags]
    simp [List.all_append, all_processFrag q h4 h5, ih]

theorem all_processEvent (q : SSEEvent → Bool)
    (h1 : ∀ i, q (SSEEvent.contentBlockStartText i) = true)
    (h2 : ∀ i s, q (SSEEvent.contentBlockDeltaText i s) = true)
    (h3 : ∀ i, q (SSEEvent.contentBlockStop i) = true)
    (h4 : ∀ b id n, q (SSEEvent.contentBlockStartTool b id n (Json.obj [])) = true)
    (h5 : ∀ b s, q (SSEEvent.contentBlockDeltaInputJson b s) = true)
    (h6 : ∀ r n, q (SSEEvent.messageDelta r n) = true)
    (h7 : q SSEEvent.messageStop = true)
    (st : StreamState) (ev : BackendEvent) : (processEvent st ev).2.all q = true := by
  unfold processEvent
  split
  · rfl
  · dsimp only
    split
    · have hstops := all_filterMap_stops q h3
        (fun p =>
          if st.toolBlocksStarted.contains (st.currentBlockIndex + p.1 + 1) then
            some (SSEEvent.contentBlockStop (st.currentBlockIndex + p.1 + 1))
          else none)
        (by
          intro p e h
          dsimp at h
          split at h
          · exact ⟨_, (Option.some.inj h).symm⟩
          · cases h)
        st.toolCalls
      simp only [List.all_append, Bool.and_eq_true]
      refine ⟨⟨?_, hstops⟩, ?_⟩
      · split <;> simp [h3]
      · simp [h6, h7]
    · simp only [List.all_append, Bool.and_eq_true]
      constructor
      · split <;> simp [h1, h2]
      · split
        · rfl
        · simp only [List.all_append, Bool.and_eq_true]
          constructor
          · repeat' split
            all_goals simp [h3]
          · exact all_processFrags q h4 h5 _ _

theorem all_processLine (q : SSEEvent → Bool)
    (h1 : ∀ i, q (SSEEvent.contentBlockStartText i) = true)
    (h2 : ∀ i s, q (SSEEvent.contentBlockDeltaText i s) = true)
    (h3 : ∀ i, q (SSEEvent.contentBlockStop i) = true)
    (h4 : ∀ b id n, q (SSEEvent.contentBlockStartTool b id n (Json.obj [])) = true)
    (h5 : ∀ b s, q (SSEEvent.contentBlockDeltaInputJson b s) = true)
    (h6 : ∀ r n, q (SSEEvent.messageDelta r n) = true)
    (h7 : q SSEEvent.messageStop = true)
    (parse : List Char → Option BackendEvent) (st : StreamState) (line : List Char) :
    (processLine parse st line).2.all q = true := by
  unfold processLine
  split
  · rfl
  · split
    · rfl
    · dsimp only
      split
      · rfl
      · split
        · rfl
        · exact all_processEvent q h1 h2 h3 h4 h5 h6 h7 _ _

theorem all_processLines (q : SSEEvent → Bool)
    (h1 : ∀ i, q (SSEEvent.contentBlockStartText i) = true)
    (h2 : ∀ i s, q (SSEEvent.contentBlockDeltaText i s) = true)
    (h3 : ∀ i, q (SSEEvent.contentBlockStop i) = true)
    (h4 : ∀ b id n, q (SSEEvent.contentBlockStartTool b id n (Json.obj [])) = true)
    (h5 : ∀ b s, q (SSEEvent.contentBlockDeltaInputJson b s) = true)
    (h6 : ∀ r n, q (SSEEvent.messageDelta r n) = true)
    (h7 : q SSEEvent.messageStop = true)
    (parse : List Char → Option BackendEvent) (lines : List (List Char)) :
    ∀ st : StreamState, (processLines parse st lines).2.all q = true := by
  induction lines with
  | nil => intro st; rfl
  | cons l ls ih =>
    intro st
    simp only [processLines]
    simp [List.all_append, all_processLine q h1 h2 h3 h4 h5 h6 h7, ih]

theorem all_processChunks (q : SSEEvent → Bool)
    (h1 : ∀ i, q (SSEEvent.contentBlockStartText i) = true)
    (h2 : ∀ i s, q (SSEEvent.contentBlockDeltaText i s) = true)
    (h3 : ∀ i, q (SSEEvent.contentBlockStop i) = true)
    (h4 : ∀ b id n, q (SSEEvent.contentBlockStartTool b id n (Json.obj [])) = true)
    (h5 : ∀ b s, q (SSEEvent.contentBlockDeltaInputJson b s) = true)
    (h6 : ∀ r n, q (SSEEvent.messageDelta r n) = true)
    (h7 : q SSEEvent.messageStop = true)
    (parse : List Char → Option BackendEvent) (chunks : List (List Char)) :
    ∀ (st : StreamState) (buf : List Char),
      (processChunks parse st buf chunks).2.all q = true := by
  induction chunks with
  | nil => intro st buf; rfl
  | cons c cs ih =>
    intro st buf
    simp only [processChunks, processChunk]
    simp [List.all_append, all_processLines q h1 h2 h3 h4 h5 h6 h7, ih]

/-! ### C9 — malformed tool arguments -/

/-- C9: a backend tool call whose argument string does not parse as JSON
yields an `input` of the empty object without surfacing an error: the
non-streaming translation substitutes `{}` and still succeeds whenever a
first choice exists, and on the streaming path every emitted `tool_use`
`content_block_start` carries an empty input object (arguments are never
parsed there). -/
theorem c9_malformed_arguments :
    (∀ (parseJson : String → Option Json) (tc : NSToolCall) (s : String),
        tc.arguments = some s → s ≠ "" → parseJson s = none →
        toolUseOf parseJson tc = ContentOut.toolUse tc.id tc.name (Json.obj [])) ∧
    (∀ (parseJson : String → Option Json) (data : NSResponse) (model : String)
        (c : NSChoice) (cs : List NSChoice), data.choices.getD [] = c :: cs →
        ∃ b, translateResponse parseJson data model = Except.ok b) ∧
    (∀ (parse : List Char → Option BackendEvent) (msgId model : String)
        (chunks : List (List Char)),
        toolStartsEmpty (runStream parse msgId model chunks).2 = true) := by
  refine ⟨?_, ?_, ?_⟩
  · intro parseJson tc s hargs hs hp
    unfold toolUseOf
    rw [hargs]
    have hie : s.isEmpty = false := by
      cases hh : s.isEmpty
      · rfl
      · exact absurd ((String.isEmpty_iff s).mp hh) hs
    have ht : strTruthy (some s) = true := by simp [strTruthy, hie]
    simp [ht, hp]
  · intro parseJson data model c cs h
    unfold translateResponse
    rw [h]
    exact ⟨_, rfl⟩
  · intro parse msgId model chunks
    unfold runStream
    dsimp only
    have hall := all_processChunks (fun e =>
        match e with
        | SSEEvent.contentBlockStartTool _ _ _ inp => inp.isEmptyObj
        | _ => true)
      (by intro i; rfl) (by intro i s; rfl) (by intro i; rfl)
      (by intro b id n; rfl) (by intro b s; rfl) (by intro r n; rfl) rfl
      parse chunks initState []
    simpa [toolStartsEmpty] using hall

theorem c9_malformed_arguments_witness :
    toolUseOf (fun _ => none) ⟨"call_1", "get_weather", some "\x7bbad json"⟩ =
      ContentOut.toolUse "call_1" "get_weather" (Json.obj []) ∧
    (∃ b, translateResponse (fun _ => none)
        ⟨some [⟨some ⟨none, some [⟨"call_1", "get_weather", some "\x7bbad json"⟩]⟩, none⟩], none⟩
        "claude-sonnet" = Except.ok b) := by
  refine ⟨?_, ?_⟩
  · exact c9_malformed_arguments.1 (fun _ => none) _ "\x7bbad json" rfl (by decide) rfl
  · exact c9_malformed_arguments.2.1 (fun _ => none) _ "claude-sonnet" _ [] rfl

/-! ### C2 — tool block index assignment and lifecycle -/

/-- C2: for a tool-call fragment with upstream index `i`, every event
emitted for it uses block index `currentBlockIndex + i`; the `tool_use`
`content_block_start` — carrying the accumulated id and name and an
empty input object — is emitted exactly when a name has been accumulated
for that index and the block is not yet started, and once the block is
started every truthy arguments fragment is re-emitted verbatim as an
`input_json_delta` at that same index. -/
theorem c2_tool_block_indexing (st : StreamState) (tc : ToolCallFragment) :
    (∀ e ∈ (processFrag st tc).2,
        e.blockIndex? = some (st.currentBlockIndex + tc.index.getD 0)) ∧
    (st.toolBlocksStarted.contains (st.currentBlockIndex + tc.index.getD 0) = false →
      (mergedAcc st tc).name ≠ "" →
      (processFrag st tc).2 =
        SSEEvent.contentBlockStartTool (st.currentBlockIndex + tc.index.getD 0)
            (mergedAcc st tc).id (mergedAcc st tc).name (Json.obj []) ::
          (if strTruthy tc.arguments then
            [SSEEvent.contentBlockDeltaInputJson (st.currentBlockIndex + tc.index.getD 0)
              (tc.arguments.getD "")]
          else [])) ∧
    (st.toolBlocksStarted.contains (st.currentBlockIndex + tc.index.getD 0) = true →
      (processFrag st tc).2 =
        if strTruthy tc.arguments then
          [SSEEvent.contentBlockDeltaInputJson (st.currentBlockIndex + tc.index.getD 0)
            (tc.arguments.getD "")]
        else []) := by
  refine ⟨?_, ?_, ?_⟩
  · intro e he
    have hite : ∀ (c : Prop) (inst : Decidable c) (l : List SSEEvent),
        e ∈ (if c then l else []) → e ∈ l := by
      intro c inst l h
      split at h
      · exact h
      · cases h
    simp only [processFrag] at he
    rcases List.mem_append.mp he with h | h
    · have h2 := hite _ _ _ h
      simp only [List.mem_singleton] at h2
      subst h2
      rfl
    · have h2 := hite _ _ _ h
      simp only [List.mem_singleton] at h2
      subst h2
      rfl
  · intro hns hname
    have hne : (mergedAcc st tc).name.isEmpty = false := by
      cases hh : (mergedAcc st tc).name.isEmpty
      · rfl
      · exact absurd ((String.isEmpty_iff _).mp hh) hname
    simp only [processFrag, hns, hne]
    simp [List.contains_cons]
  · intro hs
    have hmem : st.currentBlockIndex + tc.index.getD 0 ∈ st.toolBlocksStarted := by
      simpa using hs
    simp only [processFrag, hs]
    simp [hmem]

/-- Concrete state: text block already closed, cursor advanced to 1. -/
def stC2a : StreamState := { initState with currentBlockIndex := 1 }

/-- Concrete fragment at upstream index 2 carrying id, name and arguments. -/
def fragC2a : ToolCallFragment := ⟨some 2, some "call_9", some "get_weather", some "\x7b\x22"⟩

/-- Concrete state with the tool block at index 0 already started. -/
def stC2b : StreamState :=
  { initState with
    toolBlocksStarted := [0]
    toolCalls := [(0, ⟨"call_9", "get_weather", "\x7b\x22"⟩)] }

/-- Concrete follow-up fragment carrying only arguments text. -/
def fragC2b : ToolCallFragment := ⟨some 0, none, none, some "x"⟩

theorem c2_tool_block_indexing_witness :
    (processFrag stC2a fragC2a).2 =
      SSEEvent.contentBlockStartTool 3 "call_9" "get_weather" (Json.obj []) ::
        [SSEEvent.contentBlockDeltaInputJson 3 "\x7b\x22"] ∧
    (processFrag stC2b fragC2b).2 = [SSEEvent.contentBlockDeltaInputJson 0 "x"] := by
  constructor
  · have h := (c2_tool_block_indexing stC2a fragC2a).2.1 rfl (by decide)
    simpa using h
  · have h := (c2_tool_block_indexing stC2b fragC2b).2.2 rfl
    simpa using h

/-! ### C1 — finish-reason block closing -/

/-- Whether an event is a `content_block_stop` at the given index. -/
def isStopAt (k : Nat) : SSEEvent → Bool
  | SSEEvent.contentBlockStop i => i == k
  | _ => false

/-- Whether an event is a `tool_use` `content_block_start` at the given index. -/
def isToolStartAt (k : Nat) : SSEEvent → Bool
  | SSEEvent.contentBlockStartTool i _ _ _ => i == k
  | _ => false

/-- A concrete upstream tool-call fragment (index 0, id, name, arguments). -/
def fragC1 : ToolCallFragment :=
  { index := some 0, id := some "call_1", name := some "get_weather", arguments := some "\x7b\x7d" }

/-- A parsed backend event delivering `fragC1`. -/
def evC1Tool : BackendEvent :=
  { choices := some
      [{ finish_reason := none, delta := some { content := none, tool_calls := some [fragC1] } }]
    usage := none }

/-- A parsed backend event carrying `finish_reason: "tool_calls"`. -/
def evC1Finish : BackendEvent :=
  { choices := some [{ finish_reason := some "tool_calls", delta := none }], usage := none }

/-- C1 evidence: on a stream with one tool call (upstream index 0, block
started at index 0) followed by a finish reason, the translator emits
the tool `content_block_start` at index 0 but emits no
`content_block_stop` for it before `message_delta`/`message_stop`: the
finish path looks the block up at `currentBlockIndex + index + 1`, one
past the index used by the start event. -/
theorem c1_finish_skips_tool_stop :
    (processEvents initState [evC1Tool, evC1Finish]).2 =
      [SSEEvent.contentBlockStartTool 0 "call_1" "get_weather" (Json.obj []),
       SSEEvent.contentBlockDeltaInputJson 0 "\x7b\x7d",
       SSEEvent.messageDelta "tool_use" 0,
       SSEEvent.messageStop] ∧
    (processEvents initState [evC1Tool]).1.toolBlocksStarted.contains 0 = true ∧
    ((processEvents initState [evC1Tool, evC1Finish]).2.countP (isToolStartAt 0)) = 1 ∧
    ((processEvents initState [evC1Tool, evC1Finish]).2.countP (isStopAt 0)) = 0 :=
  ⟨rfl, rfl, rfl, rfl⟩

/-! ### C6 — token counters -/

theorem processFrag_outputTokens (st : StreamState) (tc : ToolCallFragment) :
    (processFrag st tc).1.outputTokens = st.outputTokens := rfl

theorem processFrag_inputTokens (st : StreamState) (tc : ToolCallFragment) :
    (processFrag st tc).1.inputTokens = st.inputTokens := rfl

theorem processFrags_outputTokens (frags : List ToolCallFragment) :
    ∀ st : StreamState, (processFrags st frags).1.outputTokens = st.outputTokens := by
  induction frags with
  | nil => intro st; rfl
  | cons tc rest ih =>
    intro st
    simp only [processFrags]
    rw [ih, processFrag_outputTokens]

theorem processFrags_inputTokens (frags : List ToolCallFragment) :
    ∀ st : StreamState, (processFrags st frags).1.inputTokens = st.inputTokens := by
  induction frags with
  | nil => intro st; rfl
  | cons tc rest ih =>
    intro st
    simp only [processFrags]
    rw [ih, processFrag_inputTokens]

/-- C6 (amended): the output-token counter gains exactly one per truthy
text content delta processed. The backend usage object is consulted only
on events whose choices array is nonempty and whose first choice carries
no truthy finish reason: an event with an empty or missing choices array
changes nothing at all (the empty-choices guard skips it before the
usage block), and a finish event terminates the stream with the counters
as they were. Where the usage object is consulted, it overrides a
counter only when the reported count is present and nonzero (`||`
semantics); a reported zero leaves the running counter unchanged. -/
theorem c6_token_counters :
    (∀ (st : StreamState) (ev : BackendEvent), ev.choices.getD [] = [] →
        processEvent st ev = (st, [])) ∧
    (∀ (st : StreamState) (ev : BackendEvent) (c : Choice) (rest : List Choice),
        ev.choices.getD [] = c :: rest → strTruthy c.finish_reason = true →
        (processEvent st ev).1.outputTokens = st.outputTokens ∧
        (processEvent st ev).1.inputTokens = st.inputTokens) ∧
    (∀ (st : StreamState) (ev : BackendEvent) (c : Choice) (rest : List Choice),
        ev.choices.getD [] = c :: rest → strTruthy c.finish_reason = false →
        (processEvent st ev).1.outputTokens =
          jsOrNat (ev.usage.bind fun u => u.completion_tokens)
            (st.outputTokens +
              (if strTruthy (c.delta.getD emptyDelta).content then 1 else 0)) ∧
        (processEvent st ev).1.inputTokens =
          jsOrNat (ev.usage.bind fun u => u.prompt_tokens) st.inputTokens) := by
  refine ⟨?_, ?_, ?_⟩
  · intro st ev h
    unfold processEvent
    rw [h]
  · intro st ev c rest h hf
    unfold processEvent
    rw [h]
    dsimp only
    simp only [hf, if_true]
    constructor <;> trivial
  · intro st ev c rest h hf
    unfold processEvent
    rw [h]
    dsimp only
    simp only [hf, Bool.false_eq_true, if_false]
    constructor
    all_goals
      repeat' split
      all_goals simp_all [jsOrNat, processFrags_outputTokens, processFrags_inputTokens]

/-- Concrete stream state with one approximate output token counted. -/
def stC6 : StreamState := { initState with outputTokens := 1 }

/-- Concrete backend event with a usage object reporting
`prompt_tokens: 5, completion_tokens: 0`. -/
def evC6 : BackendEvent :=
  { choices := some [{ finish_reason := none, delta := some emptyDelta }]
    usage := some { prompt_tokens := some 5, completion_tokens := some 0 } }

/-- Concrete usage-bearing backend event with an empty choices array (the
usual shape of a standalone backend usage chunk). -/
def evC6NoChoices : BackendEvent :=
  { choices := some []
    usage := some { prompt_tokens := some 5, completion_tokens := some 7 } }

/-- Concrete finish event that also carries a usage object. -/
def evC6Finish : BackendEvent :=
  { choices := some [{ finish_reason := some "stop", delta := none }]
    usage := some { prompt_tokens := some 5, completion_tokens := some 7 } }

/-- C6 counterexample: three usage-bearing events on which the counters
are not updated from the backend-reported counts — a reported
completion count of 0 does not override the running counter 1; a usage
object on an event with an empty choices array is never read (the
running counters keep 0/1 instead of 5/7); and a usage object on a
finish event is never read either. -/
theorem c6_counterexample :
    (evC6.usage = some { prompt_tokens := some 5, completion_tokens := some 0 } ∧
      (processEvent stC6 evC6).1.outputTokens = 1 ∧
      ¬ (processEvent stC6 evC6).1.outputTokens = 0) ∧
    (evC6NoChoices.usage = some { prompt_tokens := some 5, completion_tokens := some 7 } ∧
      processEvent stC6 evC6NoChoices = (stC6, []) ∧
      ¬ (processEvent stC6 evC6NoChoices).1.inputTokens = 5 ∧
      ¬ (processEvent stC6 evC6NoChoices).1.outputTokens = 7) ∧
    (evC6Finish.usage = some { prompt_tokens := some 5, completion_tokens := some 7 } ∧
      (processEvent stC6 evC6Finish).1.outputTokens = 1 ∧
      ¬ (processEvent stC6 evC6Finish).1.inputTokens = 5 ∧
      ¬ (processEvent stC6 evC6Finish).1.outputTokens = 7) :=
  ⟨⟨rfl, rfl, by decide⟩, ⟨rfl, rfl, by decide, by decide⟩, ⟨rfl, rfl, by decide, by decide⟩⟩

/-- Concrete backend event carrying one text content delta. -/
def evC6Text : BackendEvent :=
  { choices := some
      [{ finish_reason := none, delta := some { content := some "hi", tool_calls := none } }]
    usage := none }

theorem c6_token_counters_witness :
    processEvent stC6 evC6NoChoices = (stC6, []) ∧
    ((processEvent stC6 evC6Finish).1.outputTokens = stC6.outputTokens ∧
      (processEvent stC6 evC6Finish).1.inputTokens = stC6.inputTokens) ∧
    ((processEvent stC6 evC6).1.outputTokens =
      jsOrNat (evC6.usage.bind fun u => u.completion_tokens)
        (stC6.outputTokens +
          (if strTruthy ((Choice.mk none (some emptyDelta)).delta.getD emptyDelta).content
           then 1 else 0)) ∧
     (processEvent stC6 evC6).1.inputTokens =
      jsOrNat (evC6.usage.bind fun u => u.prompt_tokens) stC6.inputTokens) ∧
    ((processEvent initState evC6Text).1.outputTokens =
      jsOrNat (evC6Text.usage.bind fun u => u.completion_tokens)
        (initState.outputTokens +
          (if strTruthy ((Choice.mk none (some (Delta.mk (some "hi") none))).delta.getD
              emptyDelta).content
           then 1 else 0)) ∧
     (processEvent initState evC6Text).1.inputTokens =
      jsOrNat (evC6Text.usage.bind fun u => u.prompt_tokens) initState.inputTokens) :=
  ⟨c6_token_counters.1 stC6 evC6NoChoices rfl,
   c6_token_counters.2.1 stC6 evC6Finish (Choice.mk (some "stop") none) [] rfl (by decide),
   c6_token_counters.2.2 stC6 evC6 (Choice.mk none (some emptyDelta)) [] rfl rfl,
   c6_token_counters.2.2 initState evC6Text (Choice.mk none (some (Delta.mk (some "hi") none)))
     [] rfl rfl⟩

/-! ### C5 — frame parsing discipline -/

theorem splitLines_append (a b : List Char) :
    splitLines (a ++ b) =
      ((splitLines a).1 ++ (splitLines ((splitLines a).2 ++ b)).1,
        (splitLines ((splitLines a).2 ++ b)).2) := by
  induction a with
  | nil => simp [splitLines]
  | cons c rest ih =>
    by_cases hc : c = '\n'
    · subst hc
      simp [splitLines, ih]
    · cases h1 : (splitLines rest).1 with
      | nil =>
        cases h2 : (splitLines ((splitLines rest).2 ++ b)).1 with
        | nil => simp [splitLines, if_neg hc, ih, h1, h2]
        | cons l ls => simp [splitLines, if_neg hc, ih, h1, h2]
      | cons l ls => simp [splitLines, if_neg hc, ih, h1]

theorem splitLines_rest_noNl (s : List Char) : '\n' ∉ (splitLines s).2 := by
  induction s with
  | nil => simp [splitLines]
  | cons c rest ih =>
    by_cases hc : c = '\n'
    · subst hc
      simpa [splitLines] using ih
    · cases h1 : (splitLines rest).1 with
      | nil =>
        simp only [splitLines, if_neg hc, h1]
        simp only [List.mem_cons, not_or]
        exact ⟨fun h => hc h.symm, ih⟩
      | cons l ls =>
        simpa [splitLines, if_neg hc, h1] using ih

theorem noNl_splitLines (s : List Char) (h : '\n' ∉ s) : splitLines s = ([], s) := by
  induction s with
  | nil => rfl
  | cons c rest ih =>
    have hc : ¬ c = '\n' := fun hcc => h (hcc ▸ List.mem_cons_self c rest)
    have hr := ih fun hm => h (List.mem_cons_of_mem c hm)
    simp [splitLines, if_neg hc, hr]

theorem processLines_append (parse : List Char → Option BackendEvent)
    (a b : List (List Char)) :
    ∀ st : StreamState,
      processLines parse st (a ++ b) =
        ((processLines parse (processLines parse st a).1 b).1,
          (processLines parse st a).2 ++ (processLines parse (processLines parse st a).1 b).2) := by
  induction a with
  | nil => intro st; simp [processLines]
  | cons l ls ih =>
    intro st
    simp [processLines, ih, List.append_assoc]

theorem processChunk_append (parse : List Char → Option BackendEvent)
    (st : StreamState) (buf a b : List Char) :
    processChunk parse st buf (a ++ b) =
      ((processChunk parse (processChunk parse st buf a).1.1
          (processChunk parse st buf a).1.2 b).1,
        (processChunk parse st buf a).2 ++
          (processChunk parse (processChunk parse st buf a).1.1
            (processChunk parse st buf a).1.2 b).2) := by
  unfold processChunk
  dsimp only
  rw [← List.append_assoc buf a b, splitLines_append (buf ++ a) b,
    processLines_append parse _ _ _]

/-- C5: the emitted event sequence depends only on the concatenation of
the delivered chunks (the trailing incomplete line is buffered), lines
without the SSE data marker are ignored, the `[DONE]` sentinel is
ignored without terminating the stream, and data lines that fail to
parse are skipped without emitting events or changing state. -/
theorem c5_frame_discipline :
    (∀ (parse : List Char → Option BackendEvent) (st : StreamState) (buf : List Char)
        (chunks : List (List Char)), '\n' ∉ buf →
        processChunks parse st buf chunks = processChunks parse st buf [chunks.flatten]) ∧
    (∀ (parse : List Char → Option BackendEvent) (st : StreamState) (line : List Char),
        leadsWith dataMarker line = false → processLine parse st line = (st, [])) ∧
    (∀ (parse : List Char → Option BackendEvent) (st : StreamState) (line : List Char),
        trimSeq (line.drop 6) = doneMarker → processLine parse st line = (st, [])) ∧
    (∀ (parse : List Char → Option BackendEvent) (st : StreamState) (line : List Char),
        parse (trimSeq (line.drop 6)) = none → processLine parse st line = (st, [])) := by
  refine ⟨?_, ?_, ?_, ?_⟩
  · intro parse st buf chunks
    induction chunks generalizing st buf with
    | nil =>
      intro hb
      simp [processChunks, processChunk, noNl_splitLines buf hb, processLines]
    | cons c cs ih =>
      intro hb
      have hb2 : '\n' ∉ (processChunk parse st buf c).1.2 := splitLines_rest_noNl _
      calc processChunks parse st buf (c :: cs)
          = ((processChunks parse (processChunk parse st buf c).1.1
                (processChunk parse st buf c).1.2 cs).1,
              (processChunk parse st buf c).2 ++
                (processChunks parse (processChunk parse st buf c).1.1
                  (processChunk parse st buf c).1.2 cs).2) := rfl
        _ = ((processChunks parse (processChunk parse st buf c).1.1
                (processChunk parse st buf c).1.2 [cs.flatten]).1,
              (processChunk parse st buf c).2 ++
                (processChunks parse (processChunk parse st buf c).1.1
                  (processChunk parse st buf c).1.2 [cs.flatten]).2) := by
              rw [ih _ _ hb2]
        _ = processChunks parse st buf [(c :: cs).flatten] := by
              simp only [processChunks, List.flatten_cons]
              rw [processChunk_append parse st buf c cs.flatten]
              simp [List.append_assoc]
  · intro parse st line hld
    unfold processLine
    simp [hld]
  · intro parse st line hds
    unfold processLine
    split
    · rfl
    · split
      · rfl
      · dsimp only
        simp [hds]
  · intro parse st line hp
    unfold processLine
    split
    · rfl
    · split
      · rfl
      · dsimp only
        split
        · rfl
        · simp [hp]

theorem c5_frame_discipline_witness :
    processChunks (fun _ => none) initState [] ["data: x\nda".toList, "ta: y\n".toList] =
      processChunks (fun _ => none) initState []
        [(["data: x\nda".toList, "ta: y\n".toList]).flatten] ∧
    processLine (fun _ => none) initState "event: foo".toList = (initState, []) ∧
    processLine (fun _ => none) initState "data: [DONE]".toList = (initState, []) ∧
    processLine (fun _ => none) initState "data: notjson".toList = (initState, []) :=
  ⟨c5_frame_discipline.1 (fun _ => none) initState [] _ (by simp),
   c5_frame_discipline.2.1 (fun _ => none) initState _ (by decide),
   c5_frame_discipline.2.2.1 (fun _ => none) initState _ (by decide),
   c5_frame_discipline.2.2.2 (fun _ => none) initState _ rfl⟩

/-! ### C3 — stream envelope -/

/-- Shape of the events appended by one processing step, indexed by the
resulting `done` flag: while the stream is open nothing terminal is
emitted; the step that terminates ends in exactly
`message_delta, message_stop`. -/
def stepShape (d : Bool) (new : List SSEEvent) : Prop :=
  if d then
    ∃ pre r n, new = pre ++ [SSEEvent.messageDelta r n, SSEEvent.messageStop] ∧
      terminalFree pre = true
  else terminalFree new = true

theorem terminalFree_append (a b : List SSEEvent) :
    terminalFree (a ++ b) = (terminalFree a && terminalFree b) := List.all_append

theorem stepShape_comp {d1 d2 : Bool} {e1 e2 : List SSEEvent}
    (h1 : stepShape d1 e1) (h2 : d1 = false → stepShape d2 e2)
    (h3 : d1 = true → d2 = true ∧ e2 = []) :
    stepShape d2 (e1 ++ e2) := by
  cases d1 with
  | false =>
    have ht1 : terminalFree e1 = true := h1
    have hs2 := h2 rfl
    cases d2 with
    | false =>
      have ht2 : terminalFree e2 = true := hs2
      show terminalFree (e1 ++ e2) = true
      simp [terminalFree_append, ht1, ht2]
    | true =>
      obtain ⟨pre, r, n, he, hp⟩ := hs2
      exact ⟨e1 ++ pre, r, n, by rw [he, List.append_assoc],
        by simp [terminalFree_append, ht1, hp]⟩
  | true =>
    obtain ⟨hd2, he2⟩ := h3 rfl
    subst hd2
    subst he2
    simpa using h1

theorem processFrag_done (st : StreamState) (tc : ToolCallFragment) :
    (processFrag st tc).1.done = st.done := rfl

theorem processFrags_done (frags : List ToolCallFragment) :
    ∀ st : StreamState, (processFrags st frags).1.done = st.done := by
  induction frags with
  | nil => intro st; rfl
  | cons tc rest ih =>
    intro st
    simp only [processFrags]
    rw [ih, processFrag_done]

theorem terminalFree_processFrags (frags : List ToolCallFragment) (st : StreamState) :
    terminalFree (processFrags st frags).2 = true :=
  all_processFrags _ (fun _ _ _ => rfl) (fun _ _ => rfl) frags st

theorem terminalFree_nil : terminalFree [] = true := rfl

theorem terminalFree_cons (e : SSEEvent) (evs : List SSEEvent) :
    terminalFree (e :: evs) =
      ((!e.isMessageStop && !e.isMessageDelta) && terminalFree evs) := by
  simp [terminalFree]

theorem processEvent_not_finish_done (st : StreamState) (ev : BackendEvent) (c : Choice)
    (rest : List Choice) (h : ev.choices.getD [] = c :: rest)
    (hf : strTruthy c.finish_reason = false) :
    (processEvent st ev).1.done = st.done := by
  unfold processEvent
  rw [h]
  dsimp only
  simp only [hf, Bool.false_eq_true, if_false]
  repeat' split
  all_goals simp_all [processFrags_done]

theorem processEvent_not_finish_terminalFree (st : StreamState) (ev : BackendEvent)
    (c : Choice) (rest : List Choice) (h : ev.choices.getD [] = c :: rest)
    (hf : strTruthy c.finish_reason = false) :
    terminalFree (processEvent st ev).2 = true := by
  unfold processEvent
  rw [h]
  dsimp only
  simp only [hf, Bool.false_eq_true, if_false]
  repeat' split
  all_goals simp_all [terminalFree_append, terminalFree_cons, terminalFree_nil,
    terminalFree_processFrags, SSEEvent.isMessageStop, SSEEvent.isMessageDelta]

theorem processEvent_finish (st : StreamState) (ev : BackendEvent) (c : Choice)
    (rest : List Choice) (h : ev.choices.getD [] = c :: rest)
    (hf : strTruthy c.finish_reason = true) :
    (processEvent st ev).1.done = true ∧
    ∃ pre r n, (processEvent st ev).2 =
        pre ++ [SSEEvent.messageDelta r n, SSEEvent.messageStop] ∧
      terminalFree pre = true := by
  unfold processEvent
  rw [h]
  dsimp only
  simp only [hf, if_true]
  refine ⟨by trivial,
    (if st.textBlockStarted then [SSEEvent.contentBlockStop st.currentBlockIndex] else []) ++
      st.toolCalls.filterMap (fun p =>
        if st.toolBlocksStarted.contains (st.currentBlockIndex + p.1 + 1) then
          some (SSEEvent.contentBlockStop (st.currentBlockIndex + p.1 + 1))
        else none),
    (if c.finish_reason = some "tool_calls" then "tool_use" else "end_turn"),
    st.outputTokens, rfl, ?_⟩
  rw [terminalFree_append]
  have h1 : terminalFree
      (if st.textBlockStarted then [SSEEvent.contentBlockStop st.currentBlockIndex]
       else []) = true := by
    split <;> rfl
  have h2 := all_filterMap_stops
    (fun e => !e.isMessageStop && !e.isMessageDelta) (fun _ => rfl)
    (fun p =>
      if st.toolBlocksStarted.contains (st.currentBlockIndex + p.1 + 1) then
        some (SSEEvent.contentBlockStop (st.currentBlockIndex + p.1 + 1))
      else none)
    (by
      intro p e hpe
      dsimp at hpe
      split at hpe
      · exact ⟨_, (Option.some.inj hpe).symm⟩
      · cases hpe)
    st.toolCalls
  rw [h1]
  exact h2

theorem processEvent_stepShape (st : StreamState) (ev : BackendEvent) (h : st.done = false) :
    stepShape (processEvent st ev).1.done (processEvent st ev).2 := by
  cases hc : ev.choices.getD [] with
  | nil =>
    have hid : processEvent st ev = (st, []) := by
      unfold processEvent
      rw [hc]
    rw [hid]
    exact h ▸ (rfl : terminalFree [] = true)
  | cons c rest =>
    cases hf : strTruthy c.finish_reason with
    | false =>
      have hd := processEvent_not_finish_done st ev c rest hc hf
      have ht := processEvent_not_finish_terminalFree st ev c rest hc hf
      rw [hd, h]
      exact ht
    | true =>
      obtain ⟨hd, hsh⟩ := processEvent_finish st ev c rest hc hf
      rw [hd]
      exact hsh

theorem processLine_done (parse : List Char → Option BackendEvent) (st : StreamState)
    (line : List Char) (h : st.done = true) : processLine parse st line = (st, []) := by
  unfold processLine
  simp [h]

theorem processLine_stepShape (parse : List Char → Option BackendEvent) (st : StreamState)
    (line : List Char) (h : st.done = false) :
    stepShape (processLine parse st line).1.done (processLine parse st line).2 := by
  unfold processLine
  split
  · exact h ▸ (rfl : terminalFree [] = true)
  · split
    · exact h ▸ (rfl : terminalFree [] = true)
    · dsimp only
      split
      · exact h ▸ (rfl : terminalFree [] = true)
      · split
        · exact h ▸ (rfl : terminalFree [] = true)
        · exact processEvent_stepShape st _ h

theorem processLines_done (parse : List Char → Option BackendEvent)
    (lines : List (List Char)) :
    ∀ st : StreamState, st.done = true → processLines parse st lines = (st, []) := by
  induction lines with
  | nil => intro st _; rfl
  | cons l ls ih =>
    intro st h
    simp only [processLines]
    rw [processLine_done parse st l h]
    dsimp only
    rw [ih st h]
    rfl

theorem processLines_stepShape (parse : List Char → Option BackendEvent)
    (lines : List (List Char)) :
    ∀ st : StreamState, st.done = false →
      stepShape (processLines parse st lines).1.done (processLines parse st lines).2 := by
  induction lines with
  | nil =>
    intro st h
    exact h ▸ (rfl : terminalFree [] = true)
  | cons l ls ih =>
    intro st h
    simp only [processLines]
    exact stepShape_comp (processLine_stepShape parse st l h)
      (fun hfalse => ih _ hfalse)
      (fun htrue => by
        have hrest := processLines_done parse ls _ htrue
        rw [hrest]
        exact ⟨htrue, rfl⟩)

theorem processChunks_done (parse : List Char → Option BackendEvent)
    (chunks : List (List Char)) :
    ∀ (st : StreamState) (buf : List Char), st.done = true →
      (processChunks parse st buf chunks).1.1 = st ∧
        (processChunks parse st buf chunks).2 = [] := by
  induction chunks with
  | nil => intro st buf _; exact ⟨rfl, rfl⟩
  | cons c cs ih =>
    intro st buf h
    simp only [processChunks, processChunk]
    rw [processLines_done parse _ st h]
    dsimp only
    obtain ⟨h1, h2⟩ := ih st _ h
    constructor
    · exact h1
    · simpa using h2

theorem processChunks_stepShape (parse : List Char → Option BackendEvent)
    (chunks : List (List Char)) :
    ∀ (st : StreamState) (buf : List Char), st.done = false →
      stepShape (processChunks parse st buf chunks).1.1.done
        (processChunks parse st buf chunks).2 := by
  induction chunks with
  | nil =>
    intro st buf h
    exact h ▸ (rfl : terminalFree [] = true)
  | cons c cs ih =>
    intro st buf h
    simp only [processChunks, processChunk]
    exact stepShape_comp (processLines_stepShape parse _ st h)
      (fun hfalse => ih _ _ hfalse)
      (fun htrue => by
        obtain ⟨h1, h2⟩ := processChunks_done parse cs _ _ htrue
        exact ⟨by rw [h1]; exact htrue, h2⟩)

/-- C3 (amended): every outbound stream begins with `message_start`
carrying zeroed usage and the original model identifier, emitted before
any backend bytes are read; when the stream terminates through a
processed `finish_reason` (final `done` flag set) the sequence ends with
exactly one `message_delta` immediately followed by exactly one
`message_stop` and contains no other terminal events; when the backend
stream ends without a finish reason, no `message_delta` or
`message_stop` is emitted at all. -/
theorem c3_stream_envelope (parse : List Char → Option BackendEvent)
    (msgId model : String) (chunks : List (List Char)) :
    (runStream parse msgId model chunks).2.head? =
      some (SSEEvent.messageStart msgId model 0 0) ∧
    ((runStream parse msgId model chunks).1.1.done = false →
      terminalFree (runStream parse msgId model chunks).2.tail = true) ∧
    ((runStream parse msgId model chunks).1.1.done = true →
      ∃ pre r n, (runStream parse msgId model chunks).2 =
          pre ++ [SSEEvent.messageDelta r n, SSEEvent.messageStop] ∧
        terminalFree pre = true) := by
  have hs := processChunks_stepShape parse chunks initState [] rfl
  refine ⟨rfl, ?_, ?_⟩
  · intro hd
    unfold runStream at hd ⊢
    dsimp only at hd ⊢
    rw [hd] at hs
    exact hs
  · intro hd
    unfold runStream at hd ⊢
    dsimp only at hd ⊢
    rw [hd] at hs
    obtain ⟨pre, r, n, he, hp⟩ := hs
    refine ⟨SSEEvent.messageStart msgId model 0 0 :: pre, r, n, ?_, ?_⟩
    · rw [he]
      rfl
    · simp only [terminalFree, List.all_cons, Bool.and_eq_true] at hp ⊢
      exact ⟨⟨rfl, rfl⟩, hp⟩

/-- C3 counterexample: an upstream that delivers no finish reason (here,
no bytes at all) produces an outbound stream consisting of
`message_start` alone — it does not end with a `message_stop`. -/
theorem c3_counterexample :
    (runStream (fun _ => none) "msg_1" "claude-sonnet-x" []).2 =
      [SSEEvent.messageStart "msg_1" "claude-sonnet-x" 0 0] ∧
    (runStream (fun _ => none) "msg_1" "claude-sonnet-x" []).2.countP
      SSEEvent.isMessageStop = 0 :=
  ⟨rfl, rfl⟩

/-- Helper for the C3 witness: a backend whose single data line parses to
a bare finish reason. -/
def parseC3 : List Char → Option BackendEvent := fun l =>
  if l = "F".toList then some evC1Finish else none

theorem c3_stream_envelope_witness :
    (runStream parseC3 "m" "claude" ["data: F\n".toList]).2.head? =
      some (SSEEvent.messageStart "m" "claude" 0 0) ∧
    (∃ pre r n, (runStream parseC3 "m" "claude" ["data: F\n".toList]).2 =
        pre ++ [SSEEvent.messageDelta r n, SSEEvent.messageStop] ∧
      terminalFree pre = true) ∧
    terminalFree (runStream (fun _ => none) "m" "claude" []).2.tail = true :=
  ⟨(c3_stream_envelope parseC3 "m" "claude" ["data: F\n".toList]).1,
   (c3_stream_envelope parseC3 "m" "claude" ["data: F\n".toList]).2.2 (by decide),
   (c3_stream_envelope (fun _ => none) "m" "claude" []).2.1 (by decide)⟩

/-! ### C10 — input_json_delta ordering and early-argument suppression -/

/-- Whether an event is neither a tool-block start nor an
`input_json_delta`. -/
def noToolEvent : SSEEvent → Bool
  | SSEEvent.contentBlockStartTool _ _ _ _ => false
  | SSEEvent.contentBlockDeltaInputJson _ _ => false
  | _ => true

/-- One list of started indices is contained in another. -/
def startSubset (s t : List Nat) : Prop :=
  ∀ k, s.contains k = true → t.contains k = true

theorem covered_of_no_tool_events (s : List Nat) (evs : List SSEEvent)
    (h : evs.all noToolEvent = true) :
    deltasCovered s evs = true ∧ addStarts s evs = s := by
  induction evs with
  | nil => exact ⟨rfl, rfl⟩
  | cons e rest ih => cases e <;> simp_all [deltasCovered, addStarts, noToolEvent]

theorem deltasCovered_append (a b : List SSEEvent) (s : List Nat) :
    deltasCovered s (a ++ b) =
      (deltasCovered s a && deltasCovered (addStarts s a) b) := by
  induction a generalizing s with
  | nil => simp [deltasCovered, addStarts]
  | cons e rest ih => cases e <;> simp [deltasCovered, addStarts, ih, Bool.and_assoc]

theorem addStarts_append (a b : List SSEEvent) (s : List Nat) :
    addStarts s (a ++ b) = addStarts (addStarts s a) b := by
  induction a generalizing s with
  | nil => rfl
  | cons e rest ih => cases e <;> simp [addStarts, ih]

theorem covered_frag_shape (s sts : List Nat) (B : Nat) (idv nm pj : String) (inp : Json)
    (c1 c2 : Bool) (hsub : startSubset sts s)
    (h2 : c2 = true → ((if c1 then B :: sts else sts).contains B) = true) :
    deltasCovered s
      ((if c1 then [SSEEvent.contentBlockStartTool B idv nm inp] else []) ++
        (if c2 then [SSEEvent.contentBlockDeltaInputJson B pj] else [])) = true ∧
    startSubset (if c1 then B :: sts else sts)
      (addStarts s
        ((if c1 then [SSEEvent.contentBlockStartTool B idv nm inp] else []) ++
          (if c2 then [SSEEvent.contentBlockDeltaInputJson B pj] else []))) := by
  have hstep : ∀ k, (B :: sts).contains k = true → (B :: s).contains k = true := by
    intro k hk
    have hk' : k = B ∨ k ∈ sts := by simpa using hk
    have hks : k = B ∨ k ∈ s := by
      rcases hk' with hkk | hkk
      · exact Or.inl hkk
      · exact Or.inr (by simpa using hsub k (by simpa using hkk))
    simpa using hks
  cases c1 with
  | true =>
    cases c2 with
    | true =>
      constructor
      · simp [deltasCovered, addStarts]
      · intro k hk
        have := hstep k hk
        simpa [addStarts] using this
    | false =>
      constructor
      · simp [deltasCovered, addStarts]
      · intro k hk
        have := hstep k hk
        simpa [addStarts] using this
  | false =>
    cases c2 with
    | true =>
      have hB : sts.contains B = true := h2 rfl
      have hmem : B ∈ s := by simpa using hsub B hB
      constructor
      · simp [deltasCovered, addStarts, hmem]
      · intro k hk
        simpa [addStarts] using hsub k hk
    | false => exact ⟨rfl, fun k hk => hsub k hk⟩

theorem covered_processFrag (st : StreamState) (tc : ToolCallFragment) (s : List Nat)
    (hsub : startSubset st.toolBlocksStarted s) :
    deltasCovered s (processFrag st tc).2 = true ∧
    startSubset (processFrag st tc).1.toolBlocksStarted
      (addStarts s (processFrag st tc).2) := by
  exact covered_frag_shape s st.toolBlocksStarted
    (st.currentBlockIndex + tc.index.getD 0)
    (mergedAcc st tc).id (mergedAcc st tc).name (tc.arguments.getD "") (Json.obj [])
    (!(st.toolBlocksStarted.contains (st.currentBlockIndex + tc.index.getD 0)) &&
      !(mergedAcc st tc).name.isEmpty)
    (strTruthy tc.arguments &&
      (if (!(st.toolBlocksStarted.contains (st.currentBlockIndex + tc.index.getD 0)) &&
            !(mergedAcc st tc).name.isEmpty) then
        (st.currentBlockIndex + tc.index.getD 0) :: st.toolBlocksStarted
      else st.toolBlocksStarted).contains (st.currentBlockIndex + tc.index.getD 0))
    hsub
    (fun hc => (Bool.and_eq_true _ _ |>.mp hc).2)

theorem covered_processFrags (frags : List ToolCallFragment) :
    ∀ (st : StreamState) (s : List Nat), startSubset st.toolBlocksStarted s →
      deltasCovered s (processFrags st frags).2 = true ∧
      startSubset (processFrags st frags).1.toolBlocksStarted
        (addStarts s (processFrags st frags).2) := by
  induction frags with
  | nil => intro st s h; exact ⟨rfl, h⟩
  | cons tc rest ih =>
    intro st s h
    obtain ⟨h1, h2⟩ := covered_processFrag st tc s h
    obtain ⟨h3, h4⟩ := ih (processFrag st tc).1 (addStarts s (processFrag st tc).2) h2
    simp only [processFrags]
    constructor
    · rw [deltasCovered_append, h1, h3]
      rfl
    · rw [addStarts_append]
      exact h4

theorem processEvent_finish_started (st : StreamState) (ev : BackendEvent) (c : Choice)
    (rest : List Choice) (h : ev.choices.getD [] = c :: rest)
    (hf : strTruthy c.finish_reason = true) :
    (processEvent st ev).1.toolBlocksStarted = st.toolBlocksStarted := by
  unfold processEvent
  rw [h]
  dsimp only
  simp only [hf, if_true]

theorem processEvent_finish_noTool (st : StreamState) (ev : BackendEvent) (c : Choice)
    (rest : List Choice) (h : ev.choices.getD [] = c :: rest)
    (hf : strTruthy c.finish_reason = true) :
    (processEvent st ev).2.all noToolEvent = true := by
  unfold processEvent
  rw [h]
  dsimp only
  simp only [hf, if_true]
  rw [List.all_append, List.all_append]
  have h1 : (if st.textBlockStarted then [SSEEvent.contentBlockStop st.currentBlockIndex]
      else []).all noToolEvent = true := by
    split <;> rfl
  have h2 := all_filterMap_stops noToolEvent (fun _ => rfl)
    (fun p =>
      if st.toolBlocksStarted.contains (st.currentBlockIndex + p.1 + 1) then
        some (SSEEvent.contentBlockStop (st.currentBlockIndex + p.1 + 1))
      else none)
    (by
      intro p e hpe
      dsimp at hpe
      split at hpe
      · exact ⟨_, (Option.some.inj hpe).symm⟩
      · cases hpe)
    st.toolCalls
  rw [h1, h2]
  rfl

theorem processEvent_not_finish_covered (st : StreamState) (ev : BackendEvent) (c : Choice)
    (rest : List Choice) (h : ev.choices.getD [] = c :: rest)
    (hf : strTruthy c.finish_reason = false) (s : List Nat)
    (hsub : startSubset st.toolBlocksStarted s) :
    deltasCovered s (processEvent st ev).2 = true ∧
    startSubset (processEvent st ev).1.toolBlocksStarted
      (addStarts s (processEvent st ev).2) := by
  unfold processEvent
  rw [h]
  dsimp only
  simp only [hf, Bool.false_eq_true, if_false]
  repeat' split
  all_goals refine ⟨?_, ?_⟩
  all_goals simp only [deltasCovered_append, addStarts_append, deltasCovered, addStarts,
    List.append_nil, Bool.true_and, Bool.and_true]
  all_goals
    first
    | rfl
    | exact hsub
    | exact (covered_processFrags _ _ _ hsub).1
    | exact (covered_processFrags _ _ _ hsub).2
    | simp_all [covered_processFrags, hsub]

theorem covered_processEvent (st : StreamState) (ev : BackendEvent) (s : List Nat)
    (hsub : startSubset st.toolBlocksStarted s) :
    deltasCovered s (processEvent st ev).2 = true ∧
    startSubset (processEvent st ev).1.toolBlocksStarted
      (addStarts s (processEvent st ev).2) := by
  cases hc : ev.choices.getD [] with
  | nil =>
    have hid : processEvent st ev = (st, []) := by
      unfold processEvent
      rw [hc]
    rw [hid]
    exact ⟨rfl, hsub⟩
  | cons c rest =>
    cases hf : strTruthy c.finish_reason with
    | true =>
      obtain ⟨h1, h2⟩ :=
        covered_of_no_tool_events s _ (processEvent_finish_noTool st ev c rest hc hf)
      refine ⟨h1, ?_⟩
      rw [h2, processEvent_finish_started st ev c rest hc hf]
      exact hsub
    | false => exact processEvent_not_finish_covered st ev c rest hc hf s hsub

theorem covered_processLine (parse : List Char → Option BackendEvent) (st : StreamState)
    (line : List Char) (s : List Nat) (hsub : startSubset st.toolBlocksStarted s) :
    deltasCovered s (processLine parse st line).2 = true ∧
    startSubset (processLine parse st line).1.toolBlocksStarted
      (addStarts s (processLine parse st line).2) := by
  unfold processLine
  split
  · exact ⟨rfl, hsub⟩
  · split
    · exact ⟨rfl, hsub⟩
    · dsimp only
      split
      · exact ⟨rfl, hsub⟩
      · split
        · exact ⟨rfl, hsub⟩
        · exact covered_processEvent st _ s hsub

theorem covered_processLines (parse : List Char → Option BackendEvent)
    (lines : List (List Char)) :
    ∀ (st : StreamState) (s : List Nat), startSubset st.toolBlocksStarted s →
      deltasCovered s (processLines parse st lines).2 = true ∧
      startSubset (processLines parse st lines).1.toolBlocksStarted
        (addStarts s (processLines parse st lines).2) := by
  induction lines with
  | nil => intro st s h; exact ⟨rfl, h⟩
  | cons l ls ih =>
    intro st s h
    obtain ⟨h1, h2⟩ := covered_processLine parse st l s h
    obtain ⟨h3, h4⟩ := ih (processLine parse st l).1 (addStarts s (processLine parse st l).2) h2
    simp only [processLines]
    constructor
    · rw [deltasCovered_append, h1, h3]
      rfl
    · rw [addStarts_append]
      exact h4

theorem covered_processChunks (parse : List Char → Option BackendEvent)
    (chunks : List (List Char)) :
    ∀ (st : StreamState) (buf : List Char) (s : List Nat),
      startSubset st.toolBlocksStarted s →
      deltasCovered s (processChunks parse st buf chunks).2 = true ∧
      startSubset (processChunks parse st buf chunks).1.1.toolBlocksStarted
        (addStarts s (processChunks parse st buf chunks).2) := by
  induction chunks with
  | nil => intro st buf s h; exact ⟨rfl, h⟩
  | cons ch cs ih =>
    intro st buf s h
    simp only [processChunks, processChunk]
    obtain ⟨h1, h2⟩ := covered_processLines parse (splitLines (buf ++ ch)).1 st s h
    obtain ⟨h3, h4⟩ := ih (processLines parse st (splitLines (buf ++ ch)).1).1
      (splitLines (buf ++ ch)).2
      (addStarts s (processLines parse st (splitLines (buf ++ ch)).1).2) h2
    constructor
    · rw [deltasCovered_append, h1, h3]
      rfl
    · rw [addStarts_append]
      exact h4

theorem accFind_accSet_self (m : List (Nat × ToolAcc)) (i : Nat) (a0 a : ToolAcc)
    (h : accFind m i = some a0) : accFind (accSet m i a) i = some a := by
  induction m with
  | nil => cases h
  | cons p rest ih =>
    obtain ⟨k, v⟩ := p
    by_cases hk : k = i
    · simp [accFind, accSet, hk]
    · simp only [accFind, accSet, if_neg hk] at h ⊢
      exact ih h

theorem accFind_append_self (m : List (Nat × ToolAcc)) (i : Nat) (a : ToolAcc)
    (h : accFind m i = none) : accFind (m ++ [(i, a)]) i = some a := by
  induction m with
  | nil => simp [accFind]
  | cons p rest ih =>
    obtain ⟨k, v⟩ := p
    by_cases hk : k = i
    · simp [accFind, hk] at h
    · simp only [accFind, List.cons_append, if_neg hk] at h ⊢
      exact ih h

/-- C10: in any streaming run, every `input_json_delta` is preceded by the
`tool_use` `content_block_start` at the same index (scan check from an
empty started set); every tool-block start carries an empty input
object; the payload of any `input_json_delta` emitted while processing a
fragment is exactly that fragment's own arguments text (never the
accumulated earlier text, which stays only in the per-request state);
and after processing a fragment the per-request accumulator holds the
merged arguments. -/
theorem c10_delta_order :
    (∀ (parse : List Char → Option BackendEvent) (msgId model : String)
        (chunks : List (List Char)),
        deltasCovered [] (runStream parse msgId model chunks).2 = true) ∧
    (∀ (parse : List Char → Option BackendEvent) (msgId model : String)
        (chunks : List (List Char)),
        toolStartsEmpty (runStream parse msgId model chunks).2 = true) ∧
    (∀ (st : StreamState) (tc : ToolCallFragment) (k : Nat) (p : String),
        SSEEvent.contentBlockDeltaInputJson k p ∈ (processFrag st tc).2 →
        tc.arguments = some p) ∧
    (∀ (st : StreamState) (tc : ToolCallFragment),
        accFind (processFrag st tc).1.toolCalls (tc.index.getD 0) =
          some (mergedAcc st tc)) := by
  refine ⟨?_, ?_, ?_, ?_⟩
  · intro parse msgId model chunks
    have h := (covered_processChunks parse chunks initState [] []
      (fun k hk => Bool.noConfusion hk)).1
    unfold runStream
    dsimp only
    simp only [deltasCovered]
    exact h
  · intro parse msgId model chunks
    unfold runStream
    dsimp only
    have hall := all_processChunks (fun e =>
        match e with
        | SSEEvent.contentBlockStartTool _ _ _ inp => inp.isEmptyObj
        | _ => true)
      (by intro i; rfl) (by intro i s; rfl) (by intro i; rfl)
      (by intro b id n; rfl) (by intro b s; rfl) (by intro r n; rfl) rfl
      parse chunks initState []
    simpa [toolStartsEmpty] using hall
  · intro st tc k p hmem
    have hite : ∀ (c : Prop) (inst : Decidable c) (l : List SSEEvent),
        SSEEvent.contentBlockDeltaInputJson k p ∈ (if c then l else []) →
          c ∧ SSEEvent.contentBlockDeltaInputJson k p ∈ l := by
      intro c inst l hm
      split at hm
      · exact ⟨by assumption, hm⟩
      · cases hm
    simp only [processFrag] at hmem
    rcases List.mem_append.mp hmem with hm | hm
    · obtain ⟨-, hm2⟩ := hite _ _ _ hm
      simp only [List.mem_singleton] at hm2
      cases hm2
    · obtain ⟨hcond, hm2⟩ := hite _ _ _ hm
      simp only [List.mem_singleton] at hm2
      have hp : p = tc.arguments.getD "" := by
        have := congrArg (fun e =>
          match e with
          | SSEEvent.contentBlockDeltaInputJson _ q => q
          | _ => "") hm2
        simpa using this
      have hargs : strTruthy tc.arguments = true := (Bool.and_eq_true _ _ |>.mp hcond).1
      cases harg : tc.arguments with
      | none => rw [harg] at hargs; cases hargs
      | some a0 =>
        rw [harg] at hp
        simp only [Option.getD_some] at hp
        rw [hp]
  · intro st tc
    simp only [processFrag]
    cases hfind : accFind st.toolCalls (tc.index.getD 0) with
    | some a0 =>
      exact accFind_accSet_self st.toolCalls (tc.index.getD 0) a0 (mergedAcc st tc) hfind
    | none =>
      exact accFind_append_self st.toolCalls (tc.index.getD 0) (mergedAcc st tc) hfind

/-- Concrete state with the tool block at index 0 already started and
early argument text accumulated. -/
def stC10 : StreamState :=
  { initState with
    toolBlocksStarted := [0]
    toolCalls := [(0, ⟨"call_7", "lookup", "early"⟩)] }

/-- Concrete follow-up fragment carrying only arguments text. -/
def fragC10 : ToolCallFragment := ⟨some 0, none, none, some "xy"⟩

theorem c10_delta_order_witness :
    deltasCovered [] (runStream (fun _ => none) "m" "claude" []).2 = true ∧
    fragC10.arguments = some "xy" ∧
    accFind (processFrag stC10 fragC10).1.toolCalls 0 = some (mergedAcc stC10 fragC10) := by
  refine ⟨c10_delta_order.1 (fun _ => none) "m" "claude" [], ?_,
    c10_delta_order.2.2.2 stC10 fragC10⟩
  exact c10_delta_order.2.2.1 stC10 fragC10 0 "xy" (by
    have hl : (processFrag stC10 fragC10).2 = [SSEEvent.contentBlockDeltaInputJson 0 "xy"] :=
      rfl
    rw [hl]
    exact List.mem_singleton.mpr rfl)

end Proxy
